import Mathlib

/-!
Verification of the collectionmaxxing library (OrderedMap, OrderedSet, TimedSet
and the shared identity-resolution helpers) against its specification.

The development is a shallow embedding of the TypeScript sources:
JavaScript values that the container semantics depends on (the `undefined`
and `null` sentinels, primitive numbers and booleans) are modelled by the
inductive type `JSVal`; the insertion-ordered backing `Map`/`Set` of the host
runtime is modelled by association lists with replace-in-place update; the
timer runtime used by `TimedSet` is modelled by an explicit arena of timer
records together with an explicit clock.
-/

namespace CollectionMaxxing

/-- Model of the JavaScript primitive values the library's semantics
depends on: `undefined`, `null`, booleans and (integer) numbers. -/
inductive JSVal where
  | undefined
  | null
  | bool (b : Bool)
  | num (n : Int)
deriving DecidableEq

/-- The JavaScript nullish-coalescing operator `x ?? y`: returns `y` when
`x` is `undefined` or `null`, and `x` otherwise. -/
def jsOrElse (x y : JSVal) : JSVal :=
  match x with
  | .undefined => y
  | .null => y
  | _ => x

/-!
## shared.ts: structural capability probing

`implementsEq` / `implementsCmp` in shared.ts probe an arbitrary value with
`typeof x === "object" && x !== null && "eq" in x && typeof x.eq === "function"
 && x.eq.length === 1`.
The probe is modelled parametrically: a `ProbeView` records every observation
the probing code can make of a value (the results of `typeof`, the null test,
the `in` operator, the arity of the candidate method, and the behaviour of the
method itself and of the primitive `===`, `<`, `>` operators).  Fallible
JavaScript operations are modelled in `Except Unit`; the only probing step
that can throw in JavaScript is the `in` operator applied to a non-object.
-/

/-- All observations the shared.ts probing code can make of a value of
type `α` (and of a second operand of the same type). -/
structure ProbeView (α : Type) where
  /-- whether `typeof x` evaluates to the string tag for objects (note that
  in JavaScript `typeof null` is also that tag) -/
  typeofIsObject : Bool
  /-- whether `x === null` -/
  isNull : Bool
  /-- whether `"eq" in x` (meaningful only for non-null objects) -/
  hasEqProp : Bool
  /-- whether `typeof x.eq === "function"` -/
  eqIsFunction : Bool
  /-- the declared parameter count `x.eq.length` -/
  eqLength : Nat
  /-- the behaviour of the method call `x.eq(b)` -/
  eqCall : α → Bool
  /-- whether `"cmp" in x` -/
  hasCmpProp : Bool
  /-- whether `typeof x.cmp === "function"` -/
  cmpIsFunction : Bool
  /-- the declared parameter count `x.cmp.length` -/
  cmpLength : Nat
  /-- the behaviour of the method call `x.cmp(b)`, as the numeric value of
  the returned `Ordering` enum member -/
  cmpCall : α → Int
  /-- the primitive strict equality `x === b` -/
  strictEq : α → Bool
  /-- the primitive relational comparison `x < b` -/
  jsLt : α → Bool
  /-- the primitive relational comparison `x > b` -/
  jsGt : α → Bool

/-- The JavaScript `in` operator applied to the probed value: it throws a
TypeError unless the right operand is a non-null object; otherwise it reports
whether the property is present. -/
def jsInProp {α : Type} (v : ProbeView α) (present : Bool) : Except Unit Bool :=
  if v.typeofIsObject && !v.isNull then .ok present else .error ()

/-- shared.ts `implementsEq`: the structural probe for the `eq` capability,
with the same left-to-right short-circuit order as the source conjunction. -/
def implementsEq {α : Type} (v : ProbeView α) : Except Unit Bool :=
  if !v.typeofIsObject then .ok false
  else if v.isNull then .ok false
  else do
    let hasProp ← jsInProp v v.hasEqProp
    if !hasProp then return false
    else if !v.eqIsFunction then return false
    else return (v.eqLength == 1)

/-- shared.ts `implementsCmp`: the structural probe for the `cmp` capability. -/
def implementsCmp {α : Type} (v : ProbeView α) : Except Unit Bool :=
  if !v.typeofIsObject then .ok false
  else if v.isNull then .ok false
  else do
    let hasProp ← jsInProp v v.hasCmpProp
    if !hasProp then return false
    else if !v.cmpIsFunction then return false
    else return (v.cmpLength == 1)

/-- The condition under which the probe succeeds, stated directly: the value
is a non-null object exposing a callable property of the capability name that
declares exactly one parameter. -/
def implementsEqCond {α : Type} (v : ProbeView α) : Bool :=
  v.typeofIsObject && !v.isNull && v.hasEqProp && v.eqIsFunction && (v.eqLength == 1)

/-- The analogous direct condition for the `cmp` capability. -/
def implementsCmpCond {α : Type} (v : ProbeView α) : Bool :=
  v.typeofIsObject && !v.isNull && v.hasCmpProp && v.cmpIsFunction && (v.cmpLength == 1)

/-- shared.ts `defaultEqualityFn`: dispatches to `a.eq(b)` when the probe
succeeds and to primitive `===` otherwise. -/
def defaultEqualityFn {α : Type} (view : α → ProbeView α) (a b : α) : Except Unit Bool := do
  let capable ← implementsEq (view a)
  if capable then return (view a).eqCall b
  else return (view a).strictEq b

/-- shared.ts `defaultComparatorFn`: dispatches to `a.cmp(b)` when the probe
succeeds, otherwise Less when `a < b`, Greater when `a > b`, Equal when
neither relation holds (numeric enum values -1, 1, 0). -/
def defaultComparatorFn {α : Type} (view : α → ProbeView α) (a b : α) : Except Unit Int := do
  let capable ← implementsCmp (view a)
  if capable then return (view a).cmpCall b
  else if (view a).jsLt b then return (-1 : Int)
  else if (view a).jsGt b then return (1 : Int)
  else return (0 : Int)

theorem implementsEq_eq_ok {α : Type} (v : ProbeView α) :
    implementsEq v = Except.ok (implementsEqCond v) := by
  unfold implementsEq implementsEqCond jsInProp
  cases h1 : v.typeofIsObject <;> cases h2 : v.isNull <;>
    cases h3 : v.hasEqProp <;> cases h4 : v.eqIsFunction <;>
      simp [h1, h2, h3, h4, Bind.bind, Except.bind, Pure.pure, Except.pure]

theorem implementsCmp_eq_ok {α : Type} (v : ProbeView α) :
    implementsCmp v = Except.ok (implementsCmpCond v) := by
  unfold implementsCmp implementsCmpCond jsInProp
  cases h1 : v.typeofIsObject <;> cases h2 : v.isNull <;>
    cases h3 : v.hasCmpProp <;> cases h4 : v.cmpIsFunction <;>
      simp [h1, h2, h3, h4, Bind.bind, Except.bind, Pure.pure, Except.pure]

/-!
## Backing-store primitives

The `OrderedMap` and `OrderedSet` classes extend the host `Map` / `Set`; the
backing store is insertion-ordered with SameValueZero key identity, which on
the primitive values of `JSVal` coincides with structural equality.
-/

/-- Host `Map.prototype.set`: replace the value in place when the key is
already present, keeping the originally stored key and its position,
otherwise append a new entry. -/
def mapRawSet (l : List (JSVal × JSVal)) (k v : JSVal) : List (JSVal × JSVal) :=
  match l with
  | [] => [(k, v)]
  | (k0, v0) :: t => if k0 = k then (k0, v) :: t else (k0, v0) :: mapRawSet t k v

/-- Host `Map.prototype.has`. -/
def mapRawHas (l : List (JSVal × JSVal)) (k : JSVal) : Bool :=
  l.any (fun e => e.1 == k)

/-- Host `Map.prototype.get`, with `undefined` as the absent result. -/
def mapRawGet (l : List (JSVal × JSVal)) (k : JSVal) : JSVal :=
  match l with
  | [] => .undefined
  | (k0, v0) :: t => if k0 = k then v0 else mapRawGet t k

/-- Host `Map.prototype.delete` (the updated store; the boolean result is
`mapRawHas l k`). -/
def mapRawDelete (l : List (JSVal × JSVal)) (k : JSVal) : List (JSVal × JSVal) :=
  match l with
  | [] => []
  | (k0, v0) :: t => if k0 = k then t else (k0, v0) :: mapRawDelete t k

/-- Host `Set.prototype.add`: append unless already present. -/
def setRawAdd (l : List JSVal) (x : JSVal) : List JSVal :=
  if x ∈ l then l else l ++ [x]

/-!
## The sorted projection

`OrderedMap.sortedEntries` and `OrderedSet.sortedValues` sort the backing
entries with the host `Array.prototype.sort`, which is specified to be a
stable sort driven by the numeric sign of the comparator; we model it by
stable insertion sort with the reflexive relation `comparator ≤ 0`. -/

/-- The order on map entries induced by a numeric key comparator, as used by
`sortedEntries`: entry `e1` may precede `e2` when `comparatorFn e1.1 e2.1`
is not positive. -/
def entryLe (cmpFn : JSVal → JSVal → Int) (e1 e2 : JSVal × JSVal) : Prop :=
  cmpFn e1.1 e2.1 ≤ 0

instance (cmpFn : JSVal → JSVal → Int) : DecidableRel (entryLe cmpFn) :=
  fun e1 e2 => Int.decLe _ _

/-- The analogous order on set elements used by `sortedValues`. -/
def valLe (cmpFn : JSVal → JSVal → Int) (a b : JSVal) : Prop :=
  cmpFn a b ≤ 0

instance (cmpFn : JSVal → JSVal → Int) : DecidableRel (valLe cmpFn) :=
  fun a b => Int.decLe _ _

/-!
## OrderedMap.ts
-/

/-- State of an `OrderedMap`: the injected (or defaulted) equality and
comparator functions, the insertion-ordered backing store of the parent
`Map`, and the `_sortedEntries` cache (`none` models `undefined`). -/
structure OrderedMap where
  eqFn : JSVal → JSVal → Bool
  cmpFn : JSVal → JSVal → Int
  backing : List (JSVal × JSVal)
  cache : Option (List (JSVal × JSVal))

/-- A freshly constructed `OrderedMap` with no initial entries. -/
def OrderedMap.empty (eqFn : JSVal → JSVal → Bool) (cmpFn : JSVal → JSVal → Int) :
    OrderedMap :=
  ⟨eqFn, cmpFn, [], none⟩

/-- The linear scan of `findKey`: the first stored key that the equality
function relates to the probe, in insertion order. -/
def findKeyAux (eqFn : JSVal → JSVal → Bool) (key : JSVal) :
    List (JSVal × JSVal) → JSVal
  | [] => .undefined
  | (k0, _) :: t => if eqFn k0 key then k0 else findKeyAux eqFn key t

/-- `OrderedMap.findKey`: resolves the canonical stored key for `key`, with
`undefined` as the not-found result (hence a stored `undefined` key is
indistinguishable from absence). -/
def OrderedMap.findKey (m : OrderedMap) (key : JSVal) : JSVal :=
  findKeyAux m.eqFn key m.backing

/-- `OrderedMap.invalidate`: `this._sortedEntries = undefined`. -/
def OrderedMap.invalidate (m : OrderedMap) : OrderedMap :=
  { m with cache := none }

/-- `OrderedMap.set`: invalidates the projection, then writes the value
through `findKey(key) ?? key`. -/
def OrderedMap.set (m : OrderedMap) (key value : JSVal) : OrderedMap :=
  let m1 := m.invalidate
  { m1 with backing := mapRawSet m1.backing (jsOrElse (m1.findKey key) key) value }

/-- `OrderedMap.get`: reads through the canonical key when resolution
succeeded, otherwise returns `undefined`. -/
def OrderedMap.get (m : OrderedMap) (key : JSVal) : JSVal :=
  let existing := m.findKey key
  if existing ≠ .undefined then mapRawGet m.backing existing else .undefined

/-- `OrderedMap.has`: true iff key resolution succeeds. -/
def OrderedMap.has (m : OrderedMap) (key : JSVal) : Bool :=
  m.findKey key != .undefined

/-- `OrderedMap.delete`: removes the canonical entry when resolution
succeeds (invalidating the projection) and reports whether the parent map
removed an entry; otherwise returns false leaving the state untouched. -/
def OrderedMap.delete (m : OrderedMap) (key : JSVal) : Bool × OrderedMap :=
  let existingKey := m.findKey key
  if existingKey ≠ .undefined then
    (mapRawHas m.backing existingKey,
      { m with cache := none, backing := mapRawDelete m.backing existingKey })
  else (false, m)

/-- `OrderedMap.clear`: invalidates the projection and empties the store. -/
def OrderedMap.clear (m : OrderedMap) : OrderedMap :=
  { m with cache := none, backing := [] }

/-- The `sortedEntries` getter: returns the cached projection when present,
otherwise copies the backing entries, stable-sorts them by the comparator on
keys, caches and returns the result. -/
def OrderedMap.sortedEntries (m : OrderedMap) : List (JSVal × JSVal) × OrderedMap :=
  match m.cache with
  | some c => (c, m)
  | none =>
      let s := List.insertionSort (entryLe m.cmpFn) m.backing
      (s, { m with cache := some s })

/-- The sequence yielded by the `keys()` generator. -/
def OrderedMap.keysList (m : OrderedMap) : List JSVal :=
  (m.sortedEntries).1.map Prod.fst

/-- The sequence yielded by the `entries()` generator. -/
def OrderedMap.entriesList (m : OrderedMap) : List (JSVal × JSVal) :=
  (m.sortedEntries).1

/-- The inherited `size` getter of the parent map. -/
def OrderedMap.size (m : OrderedMap) : Nat :=
  m.backing.length

/-- Inserting a sequence of entries in order, as the constructor does with an
initial iterable (each entry goes through `this.set`). -/
def OrderedMap.setMany (m : OrderedMap) (kvs : List (JSVal × JSVal)) : OrderedMap :=
  kvs.foldl (fun acc kv => acc.set kv.1 kv.2) m

/-!
## OrderedSet (same mechanism specialised to elements)
-/

/-- State of an `OrderedSet`: equality and comparator functions, the
insertion-ordered backing store of the parent `Set`, and the `_sortedValues`
cache. -/
structure OrderedSet where
  eqFn : JSVal → JSVal → Bool
  cmpFn : JSVal → JSVal → Int
  backing : List JSVal
  cache : Option (List JSVal)

/-- A freshly constructed `OrderedSet` with no initial elements. -/
def OrderedSet.empty (eqFn : JSVal → JSVal → Bool) (cmpFn : JSVal → JSVal → Int) :
    OrderedSet :=
  ⟨eqFn, cmpFn, [], none⟩

/-- The linear scan of `findElement`. -/
def findElementAux (eqFn : JSVal → JSVal → Bool) (x : JSVal) : List JSVal → JSVal
  | [] => .undefined
  | e :: t => if eqFn e x then e else findElementAux eqFn x t

/-- `OrderedSet.findElement`: the first stored element equal (per the
equality function) to the probe, with `undefined` as the not-found result. -/
def OrderedSet.findElement (s : OrderedSet) (x : JSVal) : JSVal :=
  findElementAux s.eqFn x s.backing

/-- `OrderedSet.add`: when resolution fails (`existing === undefined`) the
element is added to the parent set and the projection is invalidated;
otherwise the call returns with no state change. -/
def OrderedSet.add (s : OrderedSet) (x : JSVal) : OrderedSet :=
  let existing := s.findElement x
  if existing = .undefined then { s with backing := setRawAdd s.backing x, cache := none }
  else s

/-- `OrderedSet.has`. -/
def OrderedSet.has (s : OrderedSet) (x : JSVal) : Bool :=
  s.findElement x != .undefined

/-- The `sortedValues` getter, analogous to `sortedEntries`. -/
def OrderedSet.sortedValues (s : OrderedSet) : List JSVal × OrderedSet :=
  match s.cache with
  | some c => (c, s)
  | none =>
      let sv := List.insertionSort (valLe s.cmpFn) s.backing
      (sv, { s with cache := some sv })

/-- The inherited `size` getter of the parent set. -/
def OrderedSet.size (s : OrderedSet) : Nat :=
  s.backing.length

/-!
## TimedSet.ts

The timer runtime is made explicit: every `new Timer(callback, delay)` call
(which performs `setTimeout`) appends a record to an arena `sched`; the
record stores the key captured by the callback closure
`() => this._map.delete(key)`, the instant the runtime will fire it, the
`_whenWillExecute` field of the `Timer` object, whether `clearTimeout` has
been called on it, whether its callback has already run, and the generation
of the `this._map` object the closure captured (`clear()` replaces `_map`
with a fresh `Map`, starting a new generation).  `Date.now()` is the explicit
clock field `now`.
-/

/-- One `setTimeout` registration together with the `Timer` object wrapping
it. -/
structure TimerRec (α : Type) where
  key : α
  due : Int
  whenWillExecute : Int
  cleared : Bool
  fired : Bool
  gen : Nat
deriving DecidableEq

/-- State of a `TimedSet` together with its timer runtime. -/
structure TimedSet (α : Type) where
  timeOut : Int
  now : Int
  map : List (α × Nat)
  sched : List (TimerRec α)
  gen : Nat
deriving DecidableEq

/-- Host `Map.prototype.set` for the key-to-timer map (keys compared with
SameValueZero). -/
def assocSet {α : Type} [DecidableEq α] (l : List (α × Nat)) (k : α) (i : Nat) :
    List (α × Nat) :=
  match l with
  | [] => [(k, i)]
  | (k0, i0) :: t => if k0 = k then (k0, i) :: t else (k0, i0) :: assocSet t k i

/-- Host `Map.prototype.get` for the key-to-timer map. -/
def assocGet {α : Type} [DecidableEq α] (l : List (α × Nat)) (k : α) : Option Nat :=
  match l with
  | [] => none
  | (k0, i0) :: t => if k0 = k then some i0 else assocGet t k

/-- Host `Map.prototype.delete` for the key-to-timer map. -/
def assocDelete {α : Type} [DecidableEq α] (l : List (α × Nat)) (k : α) :
    List (α × Nat) :=
  match l with
  | [] => []
  | (k0, i0) :: t => if k0 = k then t else (k0, i0) :: assocDelete t k

/-- Marks the arena record `i` as cleared, setting its `_whenWillExecute`
field to -1, as `Timer.clearTimer` does. -/
def markCleared {α : Type} : List (TimerRec α) → Nat → List (TimerRec α)
  | [], _ => []
  | t :: ts, 0 => { t with cleared := true, whenWillExecute := -1 } :: ts
  | t :: ts, Nat.succ n => t :: markCleared ts n

/-- Marks the arena record `i` as having run its callback. -/
def markFired {α : Type} : List (TimerRec α) → Nat → List (TimerRec α)
  | [], _ => []
  | t :: ts, 0 => { t with fired := true } :: ts
  | t :: ts, Nat.succ n => t :: markFired ts n

/-- `Timer.clearTimer` applied to the timer with arena id `i`:
`clearTimeout(this.id)` plus `this._whenWillExecute = -1`. -/
def TimedSet.clearTimer {α : Type} (s : TimedSet α) (i : Nat) : TimedSet α :=
  { s with sched := markCleared s.sched i }

/-- The state produced by `new TimedSet(timeout)` for an accepted (finite)
timeout, at clock 0. -/
def TimedSet.make {α : Type} (timeOut : Int) : TimedSet α :=
  ⟨timeOut, 0, [], [], 0⟩

/-- `TimedSet.add`: constructs a new `Timer` whose callback deletes `key`
from the captured map, due after `timeoutOverload ?? this._timeOut`, and
stores it under `key` (replacing the map entry).  Note that no prior timer
for `key` is cancelled. -/
def TimedSet.add {α : Type} [DecidableEq α] (s : TimedSet α) (key : α)
    (timeoutOverload : Option Int) : TimedSet α :=
  let delay := timeoutOverload.getD s.timeOut
  let timer : TimerRec α :=
    ⟨key, s.now + delay, s.now + delay, false, false, s.gen⟩
  { s with sched := s.sched ++ [timer], map := assocSet s.map key s.sched.length }

/-- `TimedSet.has`. -/
def TimedSet.has {α : Type} [DecidableEq α] (s : TimedSet α) (key : α) : Bool :=
  (assocGet s.map key).isSome

/-- `TimedSet.delete`: absent keys report false; for a present key its timer
is cleared first and then the entry is removed (the raw map delete of a
present key reports true). -/
def TimedSet.delete {α : Type} [DecidableEq α] (s : TimedSet α) (key : α) :
    Bool × TimedSet α :=
  match assocGet s.map key with
  | none => (false, s)
  | some i =>
      let s1 := s.clearTimer i
      (true, { s1 with map := assocDelete s1.map key })

/-- `TimedSet.refresh`: absent keys report false; for a present key its
current timer is cleared and `this.add(key)` is called with no override. -/
def TimedSet.refresh {α : Type} [DecidableEq α] (s : TimedSet α) (key : α) :
    Bool × TimedSet α :=
  match assocGet s.map key with
  | none => (false, s)
  | some i => (true, (s.clearTimer i).add key none)

/-- `TimedSet.clear`: clears the timer of every entry of the current map,
then replaces `this._map` with a fresh `Map` (a new generation). -/
def TimedSet.clear {α : Type} [DecidableEq α] (s : TimedSet α) : TimedSet α :=
  let s1 := s.map.foldl (fun acc e => acc.clearTimer e.2) s
  { s1 with map := [], gen := s1.gen + 1 }

/-- `TimedSet.getTimeRemaining`: -1 when absent, otherwise the
`_whenWillExecute` field of the stored timer minus the current clock. -/
def TimedSet.getTimeRemaining {α : Type} [DecidableEq α] (s : TimedSet α) (key : α) :
    Int :=
  match assocGet s.map key with
  | none => -1
  | some i =>
      match s.sched.get? i with
      | none => -1
      | some t => t.whenWillExecute - s.now

/-- The `rawSet` getter: the keys of the backing map in insertion order. -/
def TimedSet.rawSet {α : Type} (s : TimedSet α) : List α :=
  s.map.map Prod.fst

/-- `TimedSet.size`. -/
def TimedSet.size {α : Type} (s : TimedSet α) : Nat :=
  s.map.length

/-- `TimedSet.isEmpty`. -/
def TimedSet.isEmpty {α : Type} (s : TimedSet α) : Bool :=
  s.map.isEmpty

/-- Advancing the wall clock (time passing with no container activity). -/
def TimedSet.advanceTo {α : Type} (s : TimedSet α) (t : Int) : TimedSet α :=
  { s with now := t }

/-- The host runtime running the registration with arena id `i`: if it has
not been cleared, has not already run and its due instant has been reached,
the callback `() => this._map.delete(key)` executes against the map
generation captured by the closure (a raw delete, with no timer
cancellation). -/
def TimedSet.fire {α : Type} [DecidableEq α] (s : TimedSet α) (i : Nat) : TimedSet α :=
  match s.sched.get? i with
  | none => s
  | some t =>
      if !t.cleared && !t.fired && t.due ≤ s.now then
        { s with sched := markFired s.sched i,
                 map := if t.gen = s.gen then assocDelete s.map t.key else s.map }
      else s

/-- The number of live (scheduled, not cleared, not yet fired) timer
registrations whose callback would delete `k`. -/
def liveTimersFor {α : Type} [DecidableEq α] (s : TimedSet α) (k : α) : Nat :=
  (s.sched.filter (fun t => t.key == k && !t.cleared && !t.fired)).length

/-- Cleared flag of the arena record `i` (false for a dangling id). -/
def timerClearedAt {α : Type} (s : TimedSet α) (i : Nat) : Bool :=
  match s.sched.get? i with
  | some t => t.cleared
  | none => false

/-- Due instant of the arena record `i` (0 for a dangling id). -/
def timerDueAt {α : Type} (s : TimedSet α) (i : Nat) : Int :=
  match s.sched.get? i with
  | some t => t.due
  | none => 0

/-!
### The non-numeric timeout check of the constructor

The constructor body is `if (Number.isNaN(timeout)) throw new Error(...)`.
The argument domain (a TypeScript `number`) is modelled by `JSNum`; the
successful result carries the accepted timeout. -/

/-- A JavaScript `number` argument: NaN, one of the infinities, or a finite
number. -/
inductive JSNum where
  | nan
  | posInf
  | negInf
  | finite (q : Int)
deriving DecidableEq

/-- `Number.isNaN`. -/
def JSNum.isNaN : JSNum → Bool
  | .nan => true
  | _ => false

/-- `Number.isFinite`. -/
def JSNum.isFinite : JSNum → Bool
  | .finite _ => true
  | _ => false

/-- The argument validation performed by `new TimedSet(timeout)`: it throws
(the source message is a request to supply a number) exactly when the guard
`Number.isNaN(timeout)` holds, and otherwise constructs the instance. -/
def TimedSet.construct (t : JSNum) : Except Unit JSNum :=
  if t.isNaN then .error () else .ok t

/-!
### Set algebra methods of TimedSet

`other` is a `ReadonlySetLike` collaborator, modelled by its key-iteration
sequence (membership probes on `other` are not used by these methods except
through iteration).  Results are host `Set` objects, modelled as
deduplicated lists in insertion order.
-/

/-- Host `Set.prototype.add` on a result set. -/
def jsSetAddList {α : Type} [DecidableEq α] (l : List α) (x : α) : List α :=
  if x ∈ l then l else l ++ [x]

/-- Host `new Set(array)`: insertion-order deduplication. -/
def jsSetFromList {α : Type} [DecidableEq α] (l : List α) : List α :=
  l.foldl jsSetAddList []

/-- `TimedSet.union`: the first while loop copies every key of this set into
the result set; the guard of the second while loop re-tests `element.done`,
the already exhausted iterator of the first loop, so that body never runs
and no key of `other` is ever added. -/
def TimedSet.union {α : Type} [DecidableEq α] (s : TimedSet α) (other : List α) :
    List α :=
  s.rawSet.foldl jsSetAddList []

/-- `TimedSet.symmetricDifference`: as in `union`, the first while loop adds
every key of this set and the guard of the second loop re-tests the
exhausted `element.done`, so keys of `other` are never examined. -/
def TimedSet.symmetricDifference {α : Type} [DecidableEq α] (s : TimedSet α)
    (other : List α) : List α :=
  s.rawSet.foldl jsSetAddList []

/-- `TimedSet.intersection`: iterates `other` and keeps the keys present in
this map. -/
def TimedSet.intersection {α : Type} [DecidableEq α] (s : TimedSet α)
    (other : List α) : List α :=
  other.foldl (fun r x => if (assocGet s.map x).isSome then jsSetAddList r x else r) []

/-- `TimedSet.difference`: builds `new Set(this.rawSet)` and deletes every
key of `other` from it. -/
def TimedSet.difference {α : Type} [DecidableEq α] (s : TimedSet α)
    (other : List α) : List α :=
  other.foldl (fun r x => r.erase x) (jsSetFromList s.rawSet)

/-- `TimedSet.isDisjointFrom`: iterates `other` and reports false on the
first key present in this map. -/
def TimedSet.isDisjointFrom {α : Type} [DecidableEq α] (s : TimedSet α)
    (other : List α) : Bool :=
  other.all (fun x => !(assocGet s.map x).isSome)

/-!
## Claims
-/

/-- C9: for all inputs a and b, defaultEqualityFn returns the result of the
method call eq of a applied to b exactly when a is a non-null object exposing
a callable eq that declares exactly one parameter, and returns the primitive
strict equality of a and b otherwise; defaultComparatorFn dispatches to the
cmp method under the analogous condition, otherwise returns Less (-1) when
a is less than b, Greater (1) when a is greater than b, and Equal (0) when
neither relation holds; and the capability probe never raises an exception
for any input (it always returns an ok result). -/
theorem c9_identity_resolver_dispatch {α : Type} (view : α → ProbeView α) (a b : α) :
    implementsEq (view a) = Except.ok (implementsEqCond (view a))
    ∧ implementsCmp (view a) = Except.ok (implementsCmpCond (view a))
    ∧ defaultEqualityFn view a b =
        Except.ok (if implementsEqCond (view a) then (view a).eqCall b
          else (view a).strictEq b)
    ∧ defaultComparatorFn view a b =
        Except.ok (if implementsCmpCond (view a) then (view a).cmpCall b
          else if (view a).jsLt b then -1 else if (view a).jsGt b then 1 else 0) := by
  refine ⟨implementsEq_eq_ok _, implementsCmp_eq_ok _, ?_, ?_⟩
  · unfold defaultEqualityFn
    rw [implementsEq_eq_ok]
    cases h : implementsEqCond (view a) <;>
      simp [h, Bind.bind, Except.bind, Pure.pure, Except.pure]
  · unfold defaultComparatorFn
    rw [implementsCmp_eq_ok]
    cases h : implementsCmpCond (view a) <;>
      simp [h, Bind.bind, Except.bind, Pure.pure, Except.pure] <;>
        split_ifs <;> rfl

/-- C3 counterexample: the claim states that every non-finite default
timeout makes the constructor throw, but positive Infinity is not finite
and construction nevertheless succeeds (the guard is Number.isNaN only). -/
theorem c3_counterexample_infinity_accepted :
    JSNum.isFinite JSNum.posInf = false
    ∧ (TimedSet.construct JSNum.posInf).isOk = true := by decide

/-- C3 (amended): constructing a TimedSet throws exactly when the default
timeout argument is NaN; every other number argument, the infinities
included, is accepted.  (All remaining TimedSet operations are total
functions of the model, matching the never-throws part of the claim.) -/
theorem c3_construct_rejects_exactly_nan (t : JSNum) :
    (TimedSet.construct t).isOk = !t.isNaN := by
  cases t <;> rfl

/-- C2: evaluating the set algebra of the code on A={1,2,3}, B={2,3,4}
(default strict-equality membership).  intersection, difference and the two
disjointness tests agree with the claim, but union returns {1,2,3} instead
of the claimed {1,2,3,4} and symmetricDifference returns {1,2,3} instead of
the claimed {1,4}: the guard of the second while loop in both methods
re-tests the exhausted iterator of the first loop, so the keys of B are
never incorporated.  This contradicts the evident intent (the sibling
isSupersetOf advances the same iterator correctly), so it is recorded as a
code bug at this failing input. -/
theorem c2_set_algebra_at_failing_input :
    (let A : TimedSet Int := (((TimedSet.make 100).add 1 none).add 2 none).add 3 none;
     A.union [2, 3, 4] = [1, 2, 3]
     ∧ A.intersection [2, 3, 4] = [2, 3]
     ∧ A.difference [2, 3, 4] = [1]
     ∧ A.symmetricDifference [2, 3, 4] = [1, 2, 3]
     ∧ A.isDisjointFrom [2, 3, 4] = false
     ∧ ((TimedSet.make 100 : TimedSet Int).add 1 none).isDisjointFrom [2, 3, 4]
         = true) := by
  decide

/-- C1: the claim (and the spec invariant) says add on a present key cancels
the prior timer, so at most one live timer exists per key and a stale
callback can never delete a re-inserted key.  The code installs the new
timer without cancelling the prior one: after add(k, 2) followed by add(k)
on a TimedSet with default timeout 5, two live timers exist for k, the
container reports 5 remaining, and when the runtime fires the first (stale,
never cancelled) timer at instant 2 its callback deletes k even though the
current entry of k is due at 5.  This contradicts the documented eviction
contract, so it is recorded as a code bug at this failing input. -/
theorem c1_stale_timer_deletes_reinserted_key :
    (let s2 : TimedSet Int := ((TimedSet.make 5).add 0 (some 2)).add 0 none;
     liveTimersFor s2 0 = 2
     ∧ s2.getTimeRemaining 0 = 5
     ∧ ((s2.advanceTo 2).fire 0).has 0 = false
     ∧ ((s2.advanceTo 2).fire 0).getTimeRemaining 0 = -1) := by
  decide

theorem markCleared_length {α : Type} (l : List (TimerRec α)) (i : Nat) :
    (markCleared l i).length = l.length := by
  induction l generalizing i with
  | nil => rfl
  | cons t ts ih => cases i <;> simp [markCleared, ih]

theorem markCleared_get_self {α : Type} (l : List (TimerRec α)) (i : Nat) :
    (markCleared l i).get? i =
      (l.get? i).map (fun t => { t with cleared := true, whenWillExecute := -1 }) := by
  induction l generalizing i with
  | nil => cases i <;> rfl
  | cons t ts ih =>
      cases i with
      | zero => rfl
      | succ n => simpa [markCleared] using ih n

theorem assocGet_assocSet_self {α : Type} [DecidableEq α]
    (l : List (α × Nat)) (k : α) (i : Nat) :
    assocGet (assocSet l k i) k = some i := by
  induction l with
  | nil => simp [assocSet, assocGet]
  | cons e t ih =>
      obtain ⟨k0, i0⟩ := e
      by_cases h : k0 = k <;> simp [assocSet, assocGet, h, ih]

/-- C7: for every TimedSet with default timeout D, refresh on an absent key
returns false and changes nothing; refresh on a present key (whatever
override its current timer was installed with) returns true, cancels the
current timer, and stores a fresh timer for the key that is due at
refresh-time plus D (the default timeout), not at refresh-time plus the
original override. -/
theorem c7_refresh_resets_to_default {α : Type} [DecidableEq α]
    (s : TimedSet α) (k : α) :
    (assocGet s.map k = none → s.refresh k = (false, s))
    ∧ (∀ i, assocGet s.map k = some i → i < s.sched.length →
        (s.refresh k).1 = true
        ∧ timerClearedAt (s.refresh k).2 i = true
        ∧ assocGet ((s.refresh k).2).map k = some s.sched.length
        ∧ timerDueAt (s.refresh k).2 s.sched.length = s.now + s.timeOut) := by
  constructor
  · intro h
    simp [TimedSet.refresh, h]
  · intro i hi hlen
    refine ⟨by simp [TimedSet.refresh, hi], ?_, ?_, ?_⟩
    · simp only [TimedSet.refresh, hi, TimedSet.add, TimedSet.clearTimer, timerClearedAt]
      rw [List.get?_append (by simpa [markCleared_length] using hlen)]
      rw [markCleared_get_self]
      have ht : s.sched[i]? = some (s.sched.get ⟨i, hlen⟩) := by
        simpa [← List.get?_eq_getElem?] using List.get?_eq_get hlen
      simp [ht]
    · simp only [TimedSet.refresh, hi, TimedSet.add, TimedSet.clearTimer]
      simpa [markCleared_length] using
        assocGet_assocSet_self s.map k (markCleared s.sched i).length
    · simp only [TimedSet.refresh, hi, TimedSet.add, TimedSet.clearTimer, timerDueAt]
      have hl : (markCleared s.sched i).length = s.sched.length :=
        markCleared_length s.sched i
      rw [← hl, List.get?_concat_length]
      simp

/-- Witness for C7 at a concrete input: a TimedSet with default timeout 5
holding the key 0 under a timer installed with override 2; refresh reports
true, clears timer 0 and schedules timer 1 due at instant 5. -/
theorem c7_refresh_witness :
    (((TimedSet.make 5 : TimedSet Int).add 0 (some 2)).refresh 0).1 = true
    ∧ timerClearedAt (((TimedSet.make 5 : TimedSet Int).add 0 (some 2)).refresh 0).2 0
        = true
    ∧ assocGet ((((TimedSet.make 5 : TimedSet Int).add 0 (some 2)).refresh 0).2).map 0
        = some ((TimedSet.make 5 : TimedSet Int).add 0 (some 2)).sched.length
    ∧ timerDueAt (((TimedSet.make 5 : TimedSet Int).add 0 (some 2)).refresh 0).2
        ((TimedSet.make 5 : TimedSet Int).add 0 (some 2)).sched.length
        = ((TimedSet.make 5 : TimedSet Int).add 0 (some 2)).now
          + ((TimedSet.make 5 : TimedSet Int).add 0 (some 2)).timeOut :=
  (c7_refresh_resets_to_default ((TimedSet.make 5 : TimedSet Int).add 0 (some 2)) 0).2
    0 (by decide) (by decide)

theorem findKeyAux_rawHas (eqFn : JSVal → JSVal → Bool) (k : JSVal)
    (l : List (JSVal × JSVal)) (h : findKeyAux eqFn k l ≠ .undefined) :
    mapRawHas l (findKeyAux eqFn k l) = true := by
  induction l with
  | nil => exact absurd rfl h
  | cons e t ih =>
      obtain ⟨k0, v0⟩ := e
      by_cases he : eqFn k0 k
      · simp [findKeyAux, he, mapRawHas]
      · have h2 : findKeyAux eqFn k t ≠ .undefined := by
          simpa [findKeyAux, he] using h
        simp only [findKeyAux, he, if_false, mapRawHas, List.any_cons]
        simp [mapRawHas] at ih
        simp [ih h2]

/-- C6: for every OrderedMap, set always invalidates the cached sorted
projection (a value-only update included); delete reports exactly whether
removal occurred, invalidates the projection exactly when it does, and a
failed delete leaves the whole state (the cache included) untouched; clear
invalidates unconditionally; and the sortedEntries read returns the cached
projection when one is present and otherwise recomputes it in full from the
current backing store, caching the result. -/
theorem c6_projection_cache_discipline (m : OrderedMap) (k v : JSVal) :
    (m.set k v).cache = none
    ∧ (m.delete k).1 = m.has k
    ∧ (m.delete k).2 =
        (if m.findKey k ≠ .undefined then
          { m with cache := none, backing := mapRawDelete m.backing (m.findKey k) }
        else m)
    ∧ m.clear.cache = none
    ∧ (m.sortedEntries).1 =
        (match m.cache with
          | none => List.insertionSort (entryLe m.cmpFn) m.backing
          | some c => c)
    ∧ (m.sortedEntries).2.cache = some (m.sortedEntries).1 := by
  refine ⟨rfl, ?_, ?_, rfl, ?_, ?_⟩
  · by_cases h : m.findKey k ≠ .undefined
    · have h1 : (m.delete k).1 = mapRawHas m.backing (m.findKey k) := by
        simp [OrderedMap.delete, h]
      have h2 : m.has k = true := by
        simpa [OrderedMap.has, bne_iff_ne] using h
      rw [h1, h2]
      exact findKeyAux_rawHas m.eqFn k m.backing h
    · simp only [ne_eq, not_not] at h
      simp [OrderedMap.delete, OrderedMap.has, h]
  · by_cases h : m.findKey k ≠ .undefined <;> simp [OrderedMap.delete, h]
  · cases hc : m.cache <;> simp [OrderedMap.sortedEntries, hc]
  · cases hc : m.cache <;> simp [OrderedMap.sortedEntries, hc]

/-- C8 counterexample: the claim as stated fails when the stored equal
element is the value undefined.  With default strict equality, an
OrderedSet holding only undefined has a cached sorted projection; re-adding
undefined takes the not-found branch of add (findElement cannot distinguish
the stored undefined from absence), re-adds it to the parent set (content
unchanged) and invalidates the cache, which the claim says cannot happen. -/
theorem c8_counterexample_undefined_element :
    ((((OrderedSet.empty (fun a b => a == b) (fun _ _ => 0)).add
        .undefined).sortedValues).2.cache = some [JSVal.undefined])
    ∧ (((((OrderedSet.empty (fun a b => a == b) (fun _ _ => 0)).add
        .undefined).sortedValues).2.add .undefined).cache = none)
    ∧ (((((OrderedSet.empty (fun a b => a == b) (fun _ _ => 0)).add
        .undefined).sortedValues).2.add .undefined).backing
        = ((((OrderedSet.empty (fun a b => a == b) (fun _ _ => 0)).add
            .undefined).sortedValues).2.backing)) := by
  decide

/-- C8 (amended): calling add(x) on an OrderedSet whose element resolution
for x succeeds with a stored element other than undefined is a complete
no-op: the state is unchanged, so the stored instance is kept, the cached
sorted projection survives, and size and contents stay the same.  (When the
first stored element equal to x is undefined, resolution reports absence
and add re-adds x and invalidates the cache, as the counterexample shows.) -/
theorem c8_add_noop_when_found (s : OrderedSet) (x : JSVal)
    (h : s.findElement x ≠ .undefined) :
    s.add x = s := by
  simp [OrderedSet.add, h]

/-- Witness for C8 at a concrete input: re-adding the number 1 to a set
holding it is a no-op. -/
theorem c8_add_noop_witness :
    ((OrderedSet.empty (fun a b => a == b) (fun _ _ => 0)).add (.num 1)).add (.num 1)
      = (OrderedSet.empty (fun a b => a == b) (fun _ _ => 0)).add (.num 1) :=
  c8_add_noop_when_found _ _ (by decide)

theorem mapRawSet_append_of_not_has (l : List (JSVal × JSVal)) (k v : JSVal)
    (h : mapRawHas l k = false) : mapRawSet l k v = l ++ [(k, v)] := by
  induction l with
  | nil => rfl
  | cons e t ih =>
      obtain ⟨k0, v0⟩ := e
      simp [mapRawHas] at h
      simp [mapRawSet, h.1, ih (by simpa [mapRawHas] using h.2)]

/-- C10 counterexample: the claim quantifies over every key k equal to the
stored undefined key, but for k = undefined itself the final clause fails:
with default strict equality a map storing undefined does make has, get and
delete behave as if the entry were absent, yet set(undefined, v) does not
insert a new canonical entry; the parent map treats undefined as an
ordinary present key and overwrites the stored value in place (size stays
1 and the entry now carries the new value). -/
theorem c10_counterexample_set_undefined_writes_through :
    (((OrderedMap.empty (fun a b => a == b) (fun _ _ => 0)).set .undefined
        (.num 1)).has .undefined = false)
    ∧ ((((OrderedMap.empty (fun a b => a == b) (fun _ _ => 0)).set .undefined
        (.num 1)).set .undefined (.num 2)).backing = [(.undefined, .num 2)])
    ∧ ((((OrderedMap.empty (fun a b => a == b) (fun _ _ => 0)).set .undefined
        (.num 1)).set .undefined (.num 2)).size = 1) := by
  decide

/-- C10 (amended): whenever key resolution for k yields the undefined
sentinel (in particular when the first stored key equal to k is a stored
undefined key), the map behaves as if no entry for k existed: has(k) is
false, get(k) returns the absent sentinel, delete(k) returns false and
leaves the state untouched; and provided k itself is not a raw key of the
backing store (so in particular k is not the stored undefined value),
set(k, v) appends k as a new canonical entry, the previously stored entry
still counting towards size.  For k = undefined the appended-entry clause
fails as the counterexample shows, because the parent map overwrites the
stored undefined key in place. -/
theorem c10_stored_undefined_key_unreachable (m : OrderedMap) (k v : JSVal)
    (hfind : m.findKey k = .undefined)
    (hraw : mapRawHas m.backing k = false) :
    m.has k = false
    ∧ m.get k = .undefined
    ∧ m.delete k = (false, m)
    ∧ (m.set k v).backing = m.backing ++ [(k, v)]
    ∧ (m.set k v).size = m.size + 1 := by
  have hb : (m.set k v).backing = m.backing ++ [(k, v)] := by
    simp [OrderedMap.set, OrderedMap.invalidate, OrderedMap.findKey] at *
    simp [hfind, jsOrElse, mapRawSet_append_of_not_has _ _ v hraw]
  refine ⟨?_, ?_, ?_, hb, ?_⟩
  · simp [OrderedMap.has, hfind]
  · simp [OrderedMap.get, hfind]
  · simp [OrderedMap.delete, hfind]
  · simp [OrderedMap.size, hb]

/-- Witness for C10 at a concrete input: a map holding only a stored
undefined key, probed with the (unrelated, hence unresolvable) key 7. -/
theorem c10_stored_undefined_witness :
    (((OrderedMap.empty (fun a b => a == b) (fun _ _ => 0)).set .undefined
        (.num 1)).has (.num 7) = false)
    ∧ (((OrderedMap.empty (fun a b => a == b) (fun _ _ => 0)).set .undefined
        (.num 1)).get (.num 7) = .undefined)
    ∧ (((OrderedMap.empty (fun a b => a == b) (fun _ _ => 0)).set .undefined
        (.num 1)).delete (.num 7)
        = (false, (OrderedMap.empty (fun a b => a == b) (fun _ _ => 0)).set .undefined
            (.num 1)))
    ∧ ((((OrderedMap.empty (fun a b => a == b) (fun _ _ => 0)).set .undefined
        (.num 1)).set (.num 7) (.num 9)).backing
        = ((OrderedMap.empty (fun a b => a == b) (fun _ _ => 0)).set .undefined
            (.num 1)).backing ++ [(.num 7, .num 9)])
    ∧ ((((OrderedMap.empty (fun a b => a == b) (fun _ _ => 0)).set .undefined
        (.num 1)).set (.num 7) (.num 9)).size
        = ((OrderedMap.empty (fun a b => a == b) (fun _ _ => 0)).set .undefined
            (.num 1)).size + 1) :=
  c10_stored_undefined_key_unreachable _ _ _ (by decide) (by decide)

/-- C4 counterexample: the claim quantifies over every key A; when the
canonical key of first insertion is the value null and the equality
function relates null to the later key B, the write-through target
(findKey(B) ?? B) collapses to B because the nullish-coalescing operator
treats the resolved canonical key null like a resolution failure, so a
second entry is inserted: size grows to 2 instead of staying 1. -/
theorem c4_counterexample_null_canonical_key :
    ((((OrderedMap.empty (fun _ _ => true) (fun _ _ => 0)).set .null
        (.num 1)).set (.num 5) (.num 2)).size = 2)
    ∧ ((((OrderedMap.empty (fun _ _ => true) (fun _ _ => 0)).set .null
        (.num 1)).set (.num 5) (.num 2)).backing
        = [(.null, .num 1), (.num 5, .num 2)])
    ∧ ((((OrderedMap.empty (fun _ _ => true) (fun _ _ => 0)).set .null
        (.num 1)).set (.num 5) (.num 2)).keysList = [.null, .num 5]) := by
  decide

/-- C4 (amended): inserting key A with value v into an empty OrderedMap and
then inserting a key B equal to A per the equality function, with a
canonical key A that is neither undefined nor null, leaves a single entry
that pairs the original key object A with the later value w: the backing
store is exactly [(A, w)], the size is unchanged from the first insert, and
iteration exposes (A, w). -/
theorem c4_canonical_key_write_through (eqFn : JSVal → JSVal → Bool)
    (cmpFn : JSVal → JSVal → Int) (A B v w : JSVal)
    (hA1 : A ≠ .undefined) (hA2 : A ≠ .null) (heq : eqFn A B = true) :
    (((OrderedMap.empty eqFn cmpFn).set A v).set B w).backing = [(A, w)]
    ∧ (((OrderedMap.empty eqFn cmpFn).set A v).set B w).size
        = ((OrderedMap.empty eqFn cmpFn).set A v).size
    ∧ (((OrderedMap.empty eqFn cmpFn).set A v).set B w).entriesList = [(A, w)] := by
  have h1 : (OrderedMap.empty eqFn cmpFn).set A v
      = ⟨eqFn, cmpFn, [(A, v)], none⟩ := rfl
  have hor : jsOrElse A B = A := by
    cases A
    · exact absurd rfl hA1
    · exact absurd rfl hA2
    · rfl
    · rfl
  have hb : (((OrderedMap.empty eqFn cmpFn).set A v).set B w).backing = [(A, w)] := by
    rw [h1]
    simp [OrderedMap.set, OrderedMap.invalidate, OrderedMap.findKey, findKeyAux,
      heq, hor, mapRawSet]
  have hm1 : ((OrderedMap.empty eqFn cmpFn).set A v).backing = [(A, v)] := by rw [h1]
  refine ⟨hb, by simp [OrderedMap.size, hb, hm1], ?_⟩
  have hc : (((OrderedMap.empty eqFn cmpFn).set A v).set B w).cache = none := rfl
  simp [OrderedMap.entriesList, OrderedMap.sortedEntries, hc, hb]

/-- Witness for C4 at a concrete input: strict equality, A = B = 1. -/
theorem c4_canonical_key_witness :
    (((OrderedMap.empty (fun a b => a == b) (fun _ _ => 0)).set (.num 1)
        (.num 0)).set (.num 1) (.num 3)).backing = [(.num 1, .num 3)]
    ∧ (((OrderedMap.empty (fun a b => a == b) (fun _ _ => 0)).set (.num 1)
        (.num 0)).set (.num 1) (.num 3)).size
        = ((OrderedMap.empty (fun a b => a == b) (fun _ _ => 0)).set (.num 1)
            (.num 0)).size
    ∧ (((OrderedMap.empty (fun a b => a == b) (fun _ _ => 0)).set (.num 1)
        (.num 0)).set (.num 1) (.num 3)).entriesList = [(.num 1, .num 3)] :=
  c4_canonical_key_write_through _ _ _ _ _ _ (by decide) (by decide) (by decide)

theorem eq_of_perm_of_pairwise {β : Type} (r : β → β → Prop) :
    ∀ (l1 l2 : List β), l1.Perm l2 → l1.Pairwise r → l2.Pairwise r →
      (∀ a ∈ l1, ∀ b ∈ l1, r a b → r b a → a = b) → l1 = l2
  | [], l2, hp, _, _, _ => (hp.symm.eq_nil).symm
  | a :: t1, [], hp, _, _, _ => absurd hp.eq_nil (by simp)
  | a :: t1, b :: t2, hp, h1, h2, hanti => by
      by_cases hab : a = b
      · subst hab
        have ht := hp.cons_inv
        have hrec := eq_of_perm_of_pairwise r t1 t2 ht h1.of_cons h2.of_cons
          (fun x hx y hy hxy hyx =>
            hanti x (List.mem_cons_of_mem a hx) y (List.mem_cons_of_mem a hy) hxy hyx)
        rw [hrec]
      · exfalso
        have hbmem : b ∈ a :: t1 := hp.mem_iff.mpr (List.mem_cons_self b t2)
        have hb1 : b ∈ t1 := by
          rcases List.mem_cons.mp hbmem with h | h
          · exact absurd h.symm hab
          · exact h
        have hamem : a ∈ b :: t2 := hp.mem_iff.mp (List.mem_cons_self a t1)
        have ha2 : a ∈ t2 := by
          rcases List.mem_cons.mp hamem with h | h
          · exact absurd h hab
          · exact h
        have hr1 : r a b := List.rel_of_pairwise_cons h1 hb1
        have hr2 : r b a := List.rel_of_pairwise_cons h2 ha2
        exact hab (hanti a (List.mem_cons_self a t1) b hbmem hr1 hr2)

theorem findKeyAux_of_all_false (eqFn : JSVal → JSVal → Bool) (k : JSVal)
    (l : List (JSVal × JSVal)) (h : ∀ e ∈ l, eqFn e.1 k = false) :
    findKeyAux eqFn k l = .undefined := by
  induction l with
  | nil => rfl
  | cons e t ih =>
      obtain ⟨k0, v0⟩ := e
      have he := h (k0, v0) (List.mem_cons_self _ t)
      simp only [findKeyAux, he, if_false, Bool.false_eq_true]
      exact ih (fun x hx => h x (List.mem_cons_of_mem _ hx))

theorem mapRawHas_eq_false (l : List (JSVal × JSVal)) (k : JSVal)
    (h : ∀ e ∈ l, e.1 ≠ k) : mapRawHas l k = false := by
  simp only [mapRawHas, List.any_eq_false]
  intro e he
  simpa using h e he

theorem setMany_cons (m : OrderedMap) (e : JSVal × JSVal)
    (t : List (JSVal × JSVal)) :
    m.setMany (e :: t) = (m.set e.1 e.2).setMany t := rfl

theorem setMany_cmpFn (kvs : List (JSVal × JSVal)) :
    ∀ m : OrderedMap, (m.setMany kvs).cmpFn = m.cmpFn := by
  induction kvs with
  | nil => intro m; rfl
  | cons e t ih => intro m; rw [setMany_cons]; exact ih _

theorem setMany_cache_none (kvs : List (JSVal × JSVal)) :
    ∀ m : OrderedMap, m.cache = none → (m.setMany kvs).cache = none := by
  induction kvs with
  | nil => intro m h; exact h
  | cons e t ih => intro m _; rw [setMany_cons]; exact ih _ rfl

theorem set_backing_fresh (m : OrderedMap) (k v : JSVal)
    (hfind : m.findKey k = .undefined) (hraw : mapRawHas m.backing k = false) :
    (m.set k v).backing = m.backing ++ [(k, v)] := by
  simp [OrderedMap.set, OrderedMap.invalidate, OrderedMap.findKey] at *
  simp [hfind, jsOrElse, mapRawSet_append_of_not_has _ _ v hraw]

theorem setMany_backing (kvs : List (JSVal × JSVal)) :
    ∀ (m : OrderedMap),
      (∀ e ∈ kvs, ∀ e0 ∈ m.backing, m.eqFn e0.1 e.1 = false ∧ e0.1 ≠ e.1) →
      kvs.Pairwise (fun e1 e2 => m.eqFn e1.1 e2.1 = false ∧ e1.1 ≠ e2.1) →
      (m.setMany kvs).backing = m.backing ++ kvs := by
  induction kvs with
  | nil => intro m _ _; simp [OrderedMap.setMany]
  | cons e t ih =>
      intro m hf hp
      rw [setMany_cons]
      have hfind : m.findKey e.1 = .undefined :=
        findKeyAux_of_all_false m.eqFn e.1 m.backing
          (fun e0 he0 => (hf e (List.mem_cons_self e t) e0 he0).1)
      have hraw : mapRawHas m.backing e.1 = false :=
        mapRawHas_eq_false m.backing e.1
          (fun e0 he0 => (hf e (List.mem_cons_self e t) e0 he0).2)
      have hsetb : (m.set e.1 e.2).backing = m.backing ++ [(e.1, e.2)] :=
        set_backing_fresh m e.1 e.2 hfind hraw
      have hrec := ih (m.set e.1 e.2) ?_ ?_
      · rw [hrec, hsetb, List.append_assoc]
        simp
      · intro x hx e0 he0
        rw [hsetb] at he0
        rcases List.mem_append.mp he0 with h0 | h0
        · exact hf x (List.mem_cons_of_mem e hx) e0 h0
        · have hx0 : e0 = (e.1, e.2) := by simpa using h0
          subst hx0
          exact List.rel_of_pairwise_cons hp hx
      · exact hp.of_cons

/-- C5 counterexample: the claim as stated fails when the comparator
declares distinct keys equal.  With the constant-zero comparator, inserting
keys 1 and 2 gives keys() = [1, 2] (the stable sort preserves insertion
order on ties); the reverse comparator is again the constant-zero function,
so the reverse-comparator map also yields [1, 2], which is not the reversed
sequence [2, 1]. -/
theorem c5_counterexample_ties_not_reversed :
    (((OrderedMap.empty (fun a b => a == b) (fun _ _ => 0)).setMany
        [(.num 1, .num 0), (.num 2, .num 0)]).keysList = [.num 1, .num 2])
    ∧ (((OrderedMap.empty (fun a b => a == b) (fun a b =>
          (fun (_ _ : JSVal) => (0 : Int)) b a)).setMany
        [(.num 1, .num 0), (.num 2, .num 0)]).keysList = [.num 1, .num 2])
    ∧ ([JSVal.num 1, JSVal.num 2]
        ≠ List.reverse [JSVal.num 1, JSVal.num 2]) := by
  decide

/-- C5 (amended): for every sequence of inserts of pairwise fresh keys
(pairwise unequal per the equality function and pairwise distinct values)
under a comparator that is transitive, total and has no ties between
distinct keys, keys() is a permutation of the inserted keys that is sorted
by the comparator (hence equals the inserted keys sorted by it), and the
map constructed with the pointwise reverse comparator yields exactly the
reversed key sequence.  The no-ties requirement is necessary, as the
counterexample with a constant comparator shows. -/
theorem c5_keys_sorted_and_reverse (eqFn : JSVal → JSVal → Bool)
    (cmpFn : JSVal → JSVal → Int) (kvs : List (JSVal × JSVal))
    (hfresh : kvs.Pairwise (fun e1 e2 => eqFn e1.1 e2.1 = false ∧ e1.1 ≠ e2.1))
    (htrans : ∀ a b c : JSVal, cmpFn a b ≤ 0 → cmpFn b c ≤ 0 → cmpFn a c ≤ 0)
    (htotal : ∀ a b : JSVal, cmpFn a b ≤ 0 ∨ cmpFn b a ≤ 0)
    (hanti : ∀ a b : JSVal, cmpFn a b ≤ 0 → cmpFn b a ≤ 0 → a = b) :
    (((OrderedMap.empty eqFn cmpFn).setMany kvs).keysList).Perm (kvs.map Prod.fst)
    ∧ (((OrderedMap.empty eqFn cmpFn).setMany kvs).keysList).Pairwise
        (fun a b => cmpFn a b ≤ 0)
    ∧ ((OrderedMap.empty eqFn (fun a b => cmpFn b a)).setMany kvs).keysList
        = (((OrderedMap.empty eqFn cmpFn).setMany kvs).keysList).reverse := by
  haveI : IsTotal (JSVal × JSVal) (entryLe cmpFn) := ⟨fun a b => htotal a.1 b.1⟩
  haveI : IsTrans (JSVal × JSVal) (entryLe cmpFn) :=
    ⟨fun a b c hab hbc => htrans a.1 b.1 c.1 hab hbc⟩
  haveI : IsTotal (JSVal × JSVal) (entryLe (fun a b => cmpFn b a)) :=
    ⟨fun a b => htotal b.1 a.1⟩
  haveI : IsTrans (JSVal × JSVal) (entryLe (fun a b => cmpFn b a)) :=
    ⟨fun a b c hab hbc => htrans c.1 b.1 a.1 hbc hab⟩
  have hb1 : ((OrderedMap.empty eqFn cmpFn).setMany kvs).backing = kvs := by
    have h := setMany_backing kvs (OrderedMap.empty eqFn cmpFn)
      (fun e _ e0 he0 => absurd he0 (List.not_mem_nil e0)) hfresh
    simpa [OrderedMap.empty] using h
  have hb2 : ((OrderedMap.empty eqFn (fun a b => cmpFn b a)).setMany kvs).backing
      = kvs := by
    have h := setMany_backing kvs (OrderedMap.empty eqFn (fun a b => cmpFn b a))
      (fun e _ e0 he0 => absurd he0 (List.not_mem_nil e0)) hfresh
    simpa [OrderedMap.empty] using h
  have hc1 : ((OrderedMap.empty eqFn cmpFn).setMany kvs).cache = none :=
    setMany_cache_none kvs _ rfl
  have hc2 : ((OrderedMap.empty eqFn (fun a b => cmpFn b a)).setMany kvs).cache
      = none := setMany_cache_none kvs _ rfl
  have hm1 : ((OrderedMap.empty eqFn cmpFn).setMany kvs).cmpFn = cmpFn :=
    setMany_cmpFn kvs _
  have hm2 : ((OrderedMap.empty eqFn (fun a b => cmpFn b a)).setMany kvs).cmpFn
      = (fun a b => cmpFn b a) := setMany_cmpFn kvs _
  have hkeys1 : ((OrderedMap.empty eqFn cmpFn).setMany kvs).keysList
      = (List.insertionSort (entryLe cmpFn) kvs).map Prod.fst := by
    simp [OrderedMap.keysList, OrderedMap.sortedEntries, hc1, hb1, hm1]
  have hkeys2 : ((OrderedMap.empty eqFn (fun a b => cmpFn b a)).setMany kvs).keysList
      = (List.insertionSort (entryLe (fun a b => cmpFn b a)) kvs).map Prod.fst := by
    simp [OrderedMap.keysList, OrderedMap.sortedEntries, hc2, hb2, hm2]
  refine ⟨?_, ?_, ?_⟩
  · rw [hkeys1]
    exact (List.perm_insertionSort (entryLe cmpFn) kvs).map Prod.fst
  · rw [hkeys1]
    exact List.Pairwise.map Prod.fst (fun a b h => h)
      (List.sorted_insertionSort (entryLe cmpFn) kvs)
  · rw [hkeys1, hkeys2]
    have hnd : (kvs.map Prod.fst).Nodup :=
      List.pairwise_map.mpr (hfresh.imp (fun h => h.2))
    have hmain : List.insertionSort (entryLe (fun a b => cmpFn b a)) kvs
        = (List.insertionSort (entryLe cmpFn) kvs).reverse := by
      apply eq_of_perm_of_pairwise (entryLe (fun a b => cmpFn b a))
      · exact (List.perm_insertionSort _ kvs).trans
          ((List.perm_insertionSort (entryLe cmpFn) kvs).symm.trans
            (List.reverse_perm _).symm)
      · exact List.sorted_insertionSort _ kvs
      · exact List.pairwise_reverse.mpr
          (List.sorted_insertionSort (entryLe cmpFn) kvs)
      · intro a ha b hbm h1 h2
        have hka : a ∈ kvs := (List.perm_insertionSort _ kvs).mem_iff.mp ha
        have hkb : b ∈ kvs := (List.perm_insertionSort _ kvs).mem_iff.mp hbm
        have hk : a.1 = b.1 := hanti a.1 b.1 h2 h1
        exact List.inj_on_of_nodup_map hnd hka hkb hk
    rw [hmain, List.map_reverse]

/-- A strict total comparator on all modelled JavaScript values, used to
discharge the comparator hypotheses of the C5 theorem at a concrete
input: values are ranked injectively into the integers. -/
def jsValRank : JSVal → Int
  | .undefined => 0
  | .null => 1
  | .bool b => if b then 3 else 2
  | .num n => if 0 ≤ n then 4 + 2 * n else 3 - 2 * n

/-- The comparator induced by `jsValRank`. -/
def jsValCmp (a b : JSVal) : Int := jsValRank a - jsValRank b

theorem jsValRank_inj : ∀ a b : JSVal, jsValRank a = jsValRank b → a = b := by
  intro a b h
  cases a <;> cases b <;>
    simp only [jsValRank] at h ⊢ <;>
      first
        | rfl
        | omega
        | (split_ifs at h <;> omega)
        | (split_ifs at h <;> simp_all <;> omega)

theorem jsValCmp_trans (a b c : JSVal) :
    jsValCmp a b ≤ 0 → jsValCmp b c ≤ 0 → jsValCmp a c ≤ 0 := by
  unfold jsValCmp; omega

theorem jsValCmp_total (a b : JSVal) : jsValCmp a b ≤ 0 ∨ jsValCmp b a ≤ 0 := by
  unfold jsValCmp; omega

theorem jsValCmp_anti (a b : JSVal) :
    jsValCmp a b ≤ 0 → jsValCmp b a ≤ 0 → a = b := by
  intro h1 h2
  refine jsValRank_inj a b ?_
  unfold jsValCmp at h1 h2; omega

/-- Witness for C5 at a concrete input: keys 2 then 1 under the injective
rank comparator; the forward map sorts them, the reverse-comparator map
yields the reversed sequence. -/
theorem c5_keys_sorted_witness :
    (((OrderedMap.empty (fun a b => a == b) jsValCmp).setMany
        [(.num 2, .num 0), (.num 1, .num 0)]).keysList).Perm
      ([((JSVal.num 2 : JSVal), (JSVal.num 0 : JSVal)),
        (JSVal.num 1, JSVal.num 0)].map Prod.fst)
    ∧ (((OrderedMap.empty (fun a b => a == b) jsValCmp).setMany
        [(.num 2, .num 0), (.num 1, .num 0)]).keysList).Pairwise
        (fun a b => jsValCmp a b ≤ 0)
    ∧ ((OrderedMap.empty (fun a b => a == b) (fun a b => jsValCmp b a)).setMany
        [(.num 2, .num 0), (.num 1, .num 0)]).keysList
        = (((OrderedMap.empty (fun a b => a == b) jsValCmp).setMany
            [(.num 2, .num 0), (.num 1, .num 0)]).keysList).reverse :=
  c5_keys_sorted_and_reverse (fun a b => a == b) jsValCmp
    [(.num 2, .num 0), (.num 1, .num 0)]
    (by decide) jsValCmp_trans jsValCmp_total jsValCmp_anti

end CollectionMaxxing
